import Mathlib

/-!
Verification of `tools/generate_test262_report.py`.

The script is a single pipeline: parse a group list from a markdown
document, invoke an external test runner per group, read each group's TRX
result file, and print one summary line per group.  We embed each of its
functions shallowly:

* strings are `List Char` (one list per input line);
* `parse_groups` and the `GROUP_LINE` regular expression become an
  explicit matcher over `List Char`;
* the filesystem and XML layer is abstracted into the `TrxFile` type whose
  constructors are exactly the cases the Python code distinguishes
  (missing file, `ET.ParseError`, parsed document without a counters node,
  parsed counters node carrying optional attribute strings);
* Python's `int(...)` on an attribute string is `pyInt`, returning `none`
  where Python raises `ValueError`;
* exceptions that the Python code does not catch are modelled with
  `Except PyError`; the `do`-blocks of the source are written as explicit
  error-propagating matches, which is what `do` over `Except` means.
-/

namespace Test262Report

/-- The characters treated as whitespace by Python's `str.strip` and the
regular-expression class `\s` (ASCII part, which is all that can occur in
the shapes at issue). -/
def pySpace (c : Char) : Bool :=
  c == ' ' || c == '\t' || c == '\n' || c == '\r' || c == '\x0b' || c == '\x0c'

/-- Python `line.strip()`. -/
def pyStrip (s : List Char) : List Char :=
  ((s.dropWhile pySpace).reverse.dropWhile pySpace).reverse

/-- The character class `[A-Za-z0-9_.-]` of the `GROUP_LINE` regular
expression (`Char.isAlpha` / `Char.isDigit` are the ASCII ranges). -/
def identChar (c : Char) : Bool :=
  c.isAlpha || c.isDigit || c == '_' || c == '.' || c == '-'

/-- Consume one expected character. -/
def eatChar (a : Char) : List Char → Option (List Char)
  | [] => none
  | c :: rest => if c = a then some rest else none

/-- Consume `\d+` (greedy).  Maximal munch is exact here: in `GROUP_LINE`
every occurrence of `\d+` is followed by `/` or `\s`, neither of which
matches a digit, so the regex engine never needs to backtrack inside it. -/
def eatDigits1 : List Char → Option (List Char)
  | [] => none
  | c :: rest => if c.isDigit then some (rest.dropWhile Char.isDigit) else none

/-- Consume `\s+` (greedy).  Maximal munch is exact: the piece of
`GROUP_LINE` after each `\s+` or `\s*` is a digit or the identifier class,
and neither matches whitespace. -/
def eatSpaces1 : List Char → Option (List Char)
  | [] => none
  | c :: rest => if pySpace c then some (rest.dropWhile pySpace) else none

/-- The final anchored capture group `([A-Za-z0-9_.-]+)$`: the rest of the
line must be one or more identifier characters, and is what `m.group(1)`
returns. -/
def matchIdentPart (l : List Char) : Option (List Char) :=
  if l.isEmpty then none
  else if l.all identChar then some l else none

/-- The `\d+/\d+` part of the ratio prefix. -/
def eatRatio (l : List Char) : Option (List Char) :=
  match eatDigits1 l with
  | none => none
  | some l1 =>
    match eatChar '/' l1 with
    | none => none
    | some l2 => eatDigits1 l2

/-- The ratio prefix together with the capture:
`\d+/\d+\s+([A-Za-z0-9_.-]+)$`. -/
def ratioIdent (l : List Char) : Option (List Char) :=
  match eatRatio l with
  | none => none
  | some l1 =>
    match eatSpaces1 l1 with
    | none => none
    | some l2 => matchIdentPart l2

/-- Regex alternation: the first alternative that succeeds wins. -/
def firstSome (a b : Option (List Char)) : Option (List Char) :=
  match a with
  | some g => some g
  | none => b

/-- The optional group `(?:\d+/\d+\s+)?` followed by the capture: first
try with the ratio prefix, and on failure backtrack to matching the
identifier directly (regex backtracking on an optional group). -/
def matchRatioOpt (l : List Char) : Option (List Char) :=
  firstSome (ratioIdent l) (matchIdentPart l)

/-- Matching `GROUP_LINE.match(line)` on a whole (already stripped) line:
`^(?:✅\s*)?(?:\d+/\d+\s+)?([A-Za-z0-9_.-]+)$`, returning the captured
group.  When the checkmark is present but the remainder fails, the regex
engine backtracks to skipping the optional checkmark group. -/
def GROUP_LINE_match (l : List Char) : Option (List Char) :=
  match eatChar '✅' l with
  | some l1 => firstSome (matchRatioOpt (l1.dropWhile pySpace)) (matchRatioOpt l)
  | none => matchRatioOpt l

/-- The body of the `for line in fh` loop of `parse_groups`: strip the
line, skip it when empty or starting with `#`, otherwise match
`GROUP_LINE` and keep the captured group. -/
def processLine (line : List Char) : Option (List Char) :=
  let l := pyStrip line
  if l.isEmpty then none
  else if l.head? = some '#' then none
  else GROUP_LINE_match l

/-- Function `parse_groups`, with the file given as its list of lines. -/
def parse_groups (lines : List (List Char)) : List (List Char) :=
  lines.filterMap processLine

/-- Digit-string value, most significant digit first. -/
def digitsVal (l : List Char) : Nat :=
  l.foldl (fun acc c => 10 * acc + (c.toNat - 48)) 0

/-- A nonempty all-digit string, as Python's `int` accepts after sign
handling (`none` models `ValueError`; underscore digit grouping is not
modelled, it cannot occur in the claims at issue). -/
def pyDigits (l : List Char) : Option Nat :=
  if l.isEmpty then none
  else if l.all Char.isDigit then some (digitsVal l) else none

/-- Python `int(s)` on a string: optional surrounding whitespace, optional
sign, one or more decimal digits; anything else raises `ValueError`,
modelled as `none`. -/
def pyInt (s : List Char) : Option Int :=
  match pyStrip s with
  | '-' :: ds => (pyDigits ds).map (fun n => -(n : Int))
  | '+' :: ds => (pyDigits ds).map (fun n => (n : Int))
  | ds => (pyDigits ds).map (fun n => (n : Int))

/-- The `Counters` node of a TRX file: the three attributes the script
reads, each either absent or an arbitrary attribute string. -/
structure Counters where
  passed : Option (List Char)
  failed : Option (List Char)
  notExecuted : Option (List Char)

/-- The states of a group's result file that `run_group` distinguishes:
the file is absent (`os.path.exists` false); it exists but `ET.parse`
raises `ET.ParseError`; or it parses, with the namespaced
`ResultSummary/Counters` node either absent or present. -/
inductive TrxFile
  | missing
  | unparsable
  | parsed (counters : Option Counters)

/-- Exceptions the Python code lets escape: `ValueError` from `int(...)`
on a malformed attribute, and `FileNotFoundError` from `subprocess.run`
when the runner binary does not exist. -/
inductive PyError
  | valueError
  | fileNotFound
deriving DecidableEq

/-- Python `summary.attrib.get(name, "0")`. -/
def attrGet (a : Option (List Char)) : List Char :=
  a.getD ('0' :: [])

/-- Lift Python `int(...)` into the exception model: `ValueError` where
the string is not an integer literal. -/
def pyIntExc (s : List Char) : Except PyError Int :=
  match pyInt s with
  | some z => .ok z
  | none => .error .valueError

/-- The result-file reading section of `run_group` (lines 66-79 of the
script): missing file, `ET.ParseError`, or missing counters node leave the
counts at their initial `passed = failed = skipped = 0`; a present
counters node converts each attribute with `int(attrib.get(_, "0"))`, in
source order, and `ValueError` from any conversion propagates. -/
def read_counts (file : TrxFile) : Except PyError (Int × Int × Int) :=
  match file with
  | .missing => .ok (0, 0, 0)
  | .unparsable => .ok (0, 0, 0)
  | .parsed none => .ok (0, 0, 0)
  | .parsed (some c) =>
    match pyIntExc (attrGet c.passed) with
    | .error e => .error e
    | .ok p =>
      match pyIntExc (attrGet c.failed) with
      | .error e => .error e
      | .ok f =>
        match pyIntExc (attrGet c.notExecuted) with
        | .error e => .error e
        | .ok s => .ok (p, f, s)

/-- Outcome of the `subprocess.run(cmd, check=True, ...)` call: the runner
process completed with exit code zero; it completed with a non-zero exit
code (`CalledProcessError`, the only exception the `try` block catches);
or the invocation itself failed, e.g. the binary was not found
(`FileNotFoundError`, not caught). -/
inductive RunOutcome
  | exitZero
  | exitNonZero
  | execError
deriving DecidableEq

/-- Function `run_group`: invoke the runner (outcome abstracted as
`outcome`, the resulting file state as `file`), swallow
`CalledProcessError` only, then read the counts and return
`(group, passed, failed, total)` with `total = passed + failed + skipped`. -/
def run_group (group : List Char) (outcome : RunOutcome) (file : TrxFile) :
    Except PyError (List Char × Int × Int × Int) :=
  match outcome with
  | .execError => .error .fileNotFound
  | _ =>
    match read_counts file with
    | .error e => .error e
    | .ok (p, f, s) => .ok (group, p, f, p + f + s)

/-- Python `str(i)` for an `int`, as used by the f-string
`f"{passed}/{total} {name}"`: decimal digits, with a leading `-` for
negative values (`Nat.toDigits 10` is exactly the decimal digit string). -/
def intStr (i : Int) : List Char :=
  if i < 0 then '-' :: Nat.toDigits 10 i.natAbs else Nat.toDigits 10 i.toNat

/-- The summary-line formatting of `main` (lines 99-102): the fully-passed
marker `✅ <name>` when `failed == 0 and passed > 0 and passed == total`,
otherwise the ratio form `<passed>/<total> <name>`. -/
def summaryLine (name : List Char) (passed failed total : Int) : List Char :=
  if failed = 0 ∧ 0 < passed ∧ passed = total then '✅' :: ' ' :: name
  else intStr passed ++ '/' :: intStr total ++ ' ' :: name

/-- One iteration of the `for idx, group` loop of `main`: run the group
and format its summary line. -/
def groupStep (outcome : RunOutcome) (file : TrxFile) (g : List Char) :
    Except PyError (List Char) :=
  match run_group g outcome file with
  | .error e => .error e
  | .ok (name, p, f, total) => .ok (summaryLine name p f total)

/-- The group loop of `main`: the environment `env` gives, for the `i`-th
iteration, the runner outcome and the state of the group's result file
afterwards.  Returns the summary lines in iteration order; an uncaught
exception aborts the loop. -/
def runGroups : List (List Char) → Nat → (Nat → RunOutcome × TrxFile) →
    Except PyError (List (List Char))
  | [], _, _ => .ok []
  | g :: gs, i, env =>
    match groupStep (env i).1 (env i).2 g with
    | .error e => .error e
    | .ok line =>
      match runGroups gs (i + 1) env with
      | .error e => .error e
      | .ok rest => .ok (line :: rest)

/-- Function `main`, over the group-list document (as lines) and the
per-iteration runner environment: parse the groups; with no groups print
nothing to standard output and return exit status 1; otherwise emit one
summary line per group and return exit status 0.  Result: the
standard-output lines and the return value of `main`. -/
def main (doc : List (List Char)) (env : Nat → RunOutcome × TrxFile) :
    Except PyError (List (List Char) × Nat) :=
  let groups := parse_groups doc
  if groups.isEmpty then .ok ([], 1)
  else
    match runGroups groups 0 env with
    | .error e => .error e
    | .ok out => .ok (out, 0)

/-! ### Spec-side line shapes

The claims describe the recognized line shapes as a list of token
sequences (bare identifier, `✅ identifier`, `<int>/<int> identifier`,
`✅ <int>/<int> identifier`).  The following definitions transcribe those
shapes literally, with a whitespace run between adjacent tokens, to be
compared with `GROUP_LINE_match` above. -/

/-- Shape `identifier`: the whole line is one identifier token. -/
def shapeBare (l : List Char) : Option (List Char) :=
  matchIdentPart l

/-- Shape `✅ identifier`: checkmark, whitespace, identifier. -/
def shapeCheck (l : List Char) : Option (List Char) :=
  match eatChar '✅' l with
  | none => none
  | some l1 =>
    match eatSpaces1 l1 with
    | none => none
    | some l2 => matchIdentPart l2

/-- Shape `<int>/<int> identifier`: ratio, whitespace, identifier. -/
def shapeRatio (l : List Char) : Option (List Char) :=
  ratioIdent l

/-- Shape `✅ <int>/<int> identifier`: checkmark, whitespace, ratio,
whitespace, identifier. -/
def shapeCheckRatio (l : List Char) : Option (List Char) :=
  match eatChar '✅' l with
  | none => none
  | some l1 =>
    match eatSpaces1 l1 with
    | none => none
    | some l2 => ratioIdent l2

/-- The four recognized shapes exactly as the claim lists them. -/
def specShapes (l : List Char) : Option (List Char) :=
  firstSome (shapeBare l)
    (firstSome (shapeCheck l) (firstSome (shapeRatio l) (shapeCheckRatio l)))

/-- Shape `✅ identifier` with the whitespace after the checkmark allowed
to be empty (the amendment the code forces). -/
def shapeCheckLax (l : List Char) : Option (List Char) :=
  match eatChar '✅' l with
  | none => none
  | some l1 => matchIdentPart (l1.dropWhile pySpace)

/-- Shape `✅ <int>/<int> identifier` with the whitespace after the
checkmark allowed to be empty (the amendment the code forces). -/
def shapeCheckRatioLax (l : List Char) : Option (List Char) :=
  match eatChar '✅' l with
  | none => none
  | some l1 => ratioIdent (l1.dropWhile pySpace)

/-- The recognized shapes with the single amendment that the whitespace
after a leading checkmark may be empty. -/
def relaxedShapes (l : List Char) : Option (List Char) :=
  firstSome (shapeBare l)
    (firstSome (shapeCheckLax l) (firstSome (shapeRatio l) (shapeCheckRatioLax l)))

/-- Condition under which every attribute conversion in the reader
succeeds: each present counters attribute is an integer literal for
Python's `int`. -/
def attrsIntOk : TrxFile → Bool
  | .parsed (some c) =>
    (pyInt (attrGet c.passed)).isSome && (pyInt (attrGet c.failed)).isSome &&
      (pyInt (attrGet c.notExecuted)).isSome
  | _ => true

/-- Condition under which every attribute value that converts at all
converts to a non-negative integer. -/
def attrsNonneg : TrxFile → Bool
  | .parsed (some c) =>
    ((pyInt (attrGet c.passed)).all fun z => decide (0 ≤ z)) &&
      ((pyInt (attrGet c.failed)).all fun z => decide (0 ≤ z)) &&
      ((pyInt (attrGet c.notExecuted)).all fun z => decide (0 ≤ z))
  | _ => true

/-! ### Sanity checks on concrete inputs -/

example : parse_groups [('A' :: 'b' :: 'c' :: [])] = [('A' :: 'b' :: 'c' :: [])] := by decide
example : processLine ('✅' :: ' ' :: 'a' :: []) = some ('a' :: []) := by decide
example : processLine ('✅' :: 'a' :: []) = some ('a' :: []) := by decide
example : processLine ('1' :: '2' :: '/' :: '3' :: ' ' :: 'a' :: []) = some ('a' :: []) := by decide
example : processLine ('1' :: '2' :: '/' :: '3' :: []) = none := by decide
example : processLine (' ' :: '#' :: 'a' :: []) = none := by decide
example : processLine ('✅' :: ' ' :: '1' :: '/' :: '2' :: ' ' :: 'a' :: '-' :: 'b' :: []) = some ('a' :: '-' :: 'b' :: []) := by decide
example : pyInt ('-' :: '5' :: []) = some (-5) := by decide
example : pyInt ('a' :: 'b' :: []) = none := by decide
example : pyInt ('0' :: []) = some 0 := by decide
example : read_counts (.parsed (some ⟨some ('3' :: []), none, some ('7' :: [])⟩)) = .ok (3, 0, 7) := rfl
example : read_counts (.parsed (some ⟨some ('x' :: []), none, none⟩)) = .error .valueError := rfl
example : summaryLine ('G' :: []) 3 0 3 = '✅' :: ' ' :: 'G' :: [] := by decide
example : summaryLine ('G' :: []) 0 0 0 = '0' :: '/' :: '0' :: ' ' :: 'G' :: [] := by decide
example : summaryLine ('G' :: []) 8 2 10 = '8' :: '/' :: '1' :: '0' :: ' ' :: 'G' :: [] := by decide
example : main [('#' :: 'x' :: [])] (fun _ => (.exitZero, .missing)) = .ok ([], 1) := rfl
example : main [('G' :: [])] (fun _ => (.exitZero, .missing)) =
    .ok ([('0' :: '/' :: '0' :: ' ' :: 'G' :: [])], 0) := rfl

/-! ### Matcher lemmas -/

lemma firstSome_some (g : List Char) (b : Option (List Char)) :
    firstSome (some g) b = some g := rfl

lemma firstSome_none (b : Option (List Char)) : firstSome none b = b := rfl

lemma firstSome_self_none (a : Option (List Char)) : firstSome a none = a := by
  cases a <;> rfl

lemma all_dropWhile_of_all {p q : Char → Bool} {l : List Char}
    (h : l.all p = true) : (l.dropWhile q).all p = true := by
  induction l with
  | nil => simp
  | cons c r ih =>
    simp only [List.all_cons, Bool.and_eq_true] at h
    rw [List.dropWhile_cons]
    split
    · exact ih h.2
    · simp [List.all_cons, h.1, h.2]

lemma matchIdentPart_eq_some {l g : List Char} :
    matchIdentPart l = some g ↔ g = l ∧ l ≠ [] ∧ l.all identChar = true := by
  unfold matchIdentPart
  rcases l with _ | ⟨c, r⟩
  · simp
  · by_cases h2 : (c :: r).all identChar
    · simp [h2, eq_comm]
    · simp [h2]

lemma matchIdentPart_cons_notIdent {c : Char} (hc : identChar c = false)
    (rest : List Char) : matchIdentPart (c :: rest) = none := by
  have h2 : (c :: rest).all identChar = false := by
    simp [List.all_cons, hc]
  simp [matchIdentPart, h2]

lemma eatRatio_none_of_all {l : List Char} (h : l.all identChar = true) :
    eatRatio l = none := by
  cases l with
  | nil => rfl
  | cons c r =>
    simp only [List.all_cons, Bool.and_eq_true] at h
    unfold eatRatio eatDigits1
    by_cases hc : c.isDigit
    · simp only [hc, if_true]
      have hall : (r.dropWhile Char.isDigit).all identChar = true :=
        all_dropWhile_of_all h.2
      cases hl1 : r.dropWhile Char.isDigit with
      | nil => rfl
      | cons h1 t1 =>
        rw [hl1] at hall
        simp only [List.all_cons, Bool.and_eq_true] at hall
        have hne : h1 ≠ '/' := by
          intro e
          rw [e] at hall
          exact absurd hall.1 (by decide)
        simp [eatChar, hne]
    · simp [hc]

lemma ratioIdent_none_of_some {l g : List Char} (h : matchIdentPart l = some g) :
    ratioIdent l = none := by
  have hall := (matchIdentPart_eq_some.mp h).2.2
  unfold ratioIdent
  rw [eatRatio_none_of_all hall]

/-- The two alternatives of the ratio-optional group can never both
succeed, so the order of alternation does not matter. -/
lemma firstSome_ratio_swap (l : List Char) :
    firstSome (ratioIdent l) (matchIdentPart l) =
      firstSome (matchIdentPart l) (ratioIdent l) := by
  cases hid : matchIdentPart l with
  | some g => rw [ratioIdent_none_of_some hid, firstSome_none, firstSome_some]
  | none => rw [firstSome_self_none, firstSome_none]

lemma eatDigits1_cons_notDigit {c : Char} (hc : c.isDigit = false)
    (rest : List Char) : eatDigits1 (c :: rest) = none := by
  simp [eatDigits1, hc]

lemma ratioIdent_cons_notDigit {c : Char} (hc : c.isDigit = false)
    (rest : List Char) : ratioIdent (c :: rest) = none := by
  unfold ratioIdent eatRatio
  rw [eatDigits1_cons_notDigit hc]

lemma eatChar_cons_ne {a c : Char} (hc : c ≠ a) (rest : List Char) :
    eatChar a (c :: rest) = none := by
  simp [eatChar, hc]

/-- The regular expression `GROUP_LINE` recognizes exactly the four
claimed shapes, with the whitespace after a leading checkmark allowed to
be empty. -/
lemma GROUP_LINE_eq_relaxedShapes (l : List Char) :
    GROUP_LINE_match l = relaxedShapes l := by
  cases l with
  | nil => rfl
  | cons c rest =>
    by_cases hc : c = '✅'
    · subst hc
      have hL : GROUP_LINE_match ('✅' :: rest) =
          firstSome (matchRatioOpt (rest.dropWhile pySpace))
            (matchRatioOpt ('✅' :: rest)) := rfl
      have hid0 : matchIdentPart ('✅' :: rest) = none :=
        matchIdentPart_cons_notIdent (by decide) rest
      have hri0 : ratioIdent ('✅' :: rest) = none :=
        ratioIdent_cons_notDigit (by decide) rest
      have hR : relaxedShapes ('✅' :: rest) =
          firstSome (matchIdentPart (rest.dropWhile pySpace))
            (ratioIdent (rest.dropWhile pySpace)) := by
        unfold relaxedShapes shapeBare shapeCheckLax shapeRatio shapeCheckRatioLax
        rw [hid0, hri0]
        rw [show eatChar '✅' ('✅' :: rest) = some rest from rfl]
        cases hid : matchIdentPart (rest.dropWhile pySpace) <;>
          cases hri : ratioIdent (rest.dropWhile pySpace) <;> simp [firstSome, hid, hri]
      have hnone : matchRatioOpt ('✅' :: rest) = none := by
        unfold matchRatioOpt
        rw [hri0, hid0]
        rfl
      rw [hL, hR, hnone, firstSome_self_none]
      unfold matchRatioOpt
      exact firstSome_ratio_swap _
    · have heat : eatChar '✅' (c :: rest) = none := eatChar_cons_ne hc rest
      have hL : GROUP_LINE_match (c :: rest) = matchRatioOpt (c :: rest) := by
        unfold GROUP_LINE_match
        rw [heat]
      have hR : relaxedShapes (c :: rest) =
          firstSome (matchIdentPart (c :: rest))
            (ratioIdent (c :: rest)) := by
        unfold relaxedShapes shapeBare shapeCheckLax shapeRatio shapeCheckRatioLax
        rw [heat]
        cases hid : matchIdentPart (c :: rest) <;>
          cases hri : ratioIdent (c :: rest) <;> simp [firstSome, hid, hri]
      rw [hL, hR]
      exact firstSome_ratio_swap _

/-! ### Decimal rendering lemmas -/

lemma digitChar_isDigit {m : Nat} (h : m < 10) : (Nat.digitChar m).isDigit = true := by
  interval_cases m <;> decide

lemma toDigitsCore_head (f : Nat) : ∀ (n m0 : Nat) (t0 : List Char), m0 < 10 →
    ∃ m t, m < 10 ∧
      Nat.toDigitsCore 10 f n (Nat.digitChar m0 :: t0) = Nat.digitChar m :: t := by
  induction f with
  | zero => exact fun n m0 t0 h0 => ⟨m0, t0, h0, rfl⟩
  | succ f ih =>
    intro n m0 t0 h0
    by_cases hz : n / 10 = 0
    · refine ⟨n % 10, Nat.digitChar m0 :: t0, Nat.mod_lt _ (by omega), ?_⟩
      unfold Nat.toDigitsCore
      simp [hz]
    · obtain ⟨m, t, hm, ht⟩ :=
        ih (n / 10) (n % 10) (Nat.digitChar m0 :: t0) (Nat.mod_lt _ (by omega))
      refine ⟨m, t, hm, ?_⟩
      unfold Nat.toDigitsCore
      simp [hz, ht]

lemma toDigits_head (n : Nat) :
    ∃ m t, m < 10 ∧ Nat.toDigits 10 n = Nat.digitChar m :: t := by
  show ∃ m t, m < 10 ∧ Nat.toDigitsCore 10 (n + 1) n [] = Nat.digitChar m :: t
  by_cases hz : n / 10 = 0
  · refine ⟨n % 10, [], Nat.mod_lt _ (by omega), ?_⟩
    unfold Nat.toDigitsCore
    simp [hz]
  · obtain ⟨m, t, hm, ht⟩ := toDigitsCore_head n (n / 10) (n % 10) [] (Nat.mod_lt _ (by omega))
    refine ⟨m, t, hm, ?_⟩
    unfold Nat.toDigitsCore
    simp [hz, ht]

/-- The decimal rendering of an integer starts with a digit or a minus
sign, never with the checkmark glyph. -/
lemma intStr_head (i : Int) :
    ∃ c t, intStr i = c :: t ∧ (c.isDigit = true ∨ c = '-') := by
  unfold intStr
  split
  · exact ⟨'-', Nat.toDigits 10 i.natAbs, rfl, Or.inr rfl⟩
  · obtain ⟨m, t, hm, ht⟩ := toDigits_head i.toNat
    exact ⟨Nat.digitChar m, t, ht, Or.inl (digitChar_isDigit hm)⟩

/-- A ratio-form line can never coincide with a marker-form line: their
first characters differ. -/
lemma ratio_ne_marker (p : Int) (t1 t2 name : List Char) :
    (intStr p ++ t1) ++ t2 ≠ '✅' :: name := by
  obtain ⟨c, tl, he, hd⟩ := intStr_head p
  rw [he]
  intro h
  rw [List.cons_append, List.cons_append] at h
  injection h with h1 _
  rcases hd with hd | hd
  · rw [h1] at hd
    exact absurd hd (by decide)
  · rw [h1] at hd
    exact absurd hd (by decide)

/-! ### Identifier character lemmas -/

lemma not_space_of_identChar {c : Char} (h : identChar c = true) : pySpace c = false := by
  cases hs : pySpace c
  · rfl
  · exfalso
    have hd : ((((c = ' ' ∨ c = '\t') ∨ c = '\n') ∨ c = '\r') ∨ c = '\x0b') ∨ c = '\x0c' := by
      simpa [pySpace] using hs
    rcases hd with ((((rfl | rfl) | rfl) | rfl) | rfl) | rfl <;> exact absurd h (by decide)

lemma ne_check_of_identChar {c : Char} (h : identChar c = true) : c ≠ '✅' := by
  intro e
  rw [e] at h
  exact absurd h (by decide)

lemma ne_slash_of_identChar {c : Char} (h : identChar c = true) : c ≠ '/' := by
  intro e
  rw [e] at h
  exact absurd h (by decide)

lemma matchIdentPart_invariant {l g : List Char} (h : matchIdentPart l = some g) :
    g ≠ [] ∧ g.all identChar = true := by
  obtain ⟨rfl, h2, h3⟩ := matchIdentPart_eq_some.mp h
  exact ⟨h2, h3⟩

lemma ratioIdent_invariant {l g : List Char} (h : ratioIdent l = some g) :
    g ≠ [] ∧ g.all identChar = true := by
  unfold ratioIdent at h
  cases h1 : eatRatio l with
  | none => rw [h1] at h; cases h
  | some l1 =>
    simp only [h1] at h
    cases h2 : eatSpaces1 l1 with
    | none => rw [h2] at h; cases h
    | some l2 =>
      simp only [h2] at h
      exact matchIdentPart_invariant h

lemma matchRatioOpt_invariant {l g : List Char} (h : matchRatioOpt l = some g) :
    g ≠ [] ∧ g.all identChar = true := by
  unfold matchRatioOpt at h
  cases h1 : ratioIdent l with
  | none =>
    rw [h1, firstSome_none] at h
    exact matchIdentPart_invariant h
  | some g1 =>
    rw [h1, firstSome_some] at h
    injection h with h2
    subst h2
    exact ratioIdent_invariant h1

lemma GROUP_LINE_match_invariant {l g : List Char} (h : GROUP_LINE_match l = some g) :
    g ≠ [] ∧ g.all identChar = true := by
  unfold GROUP_LINE_match at h
  cases h1 : eatChar '✅' l with
  | none =>
    simp only [h1] at h
    exact matchRatioOpt_invariant h
  | some l1 =>
    simp only [h1] at h
    cases h2 : matchRatioOpt (l1.dropWhile pySpace) with
    | none =>
      rw [h2, firstSome_none] at h
      exact matchRatioOpt_invariant h
    | some g1 =>
      rw [h2, firstSome_some] at h
      injection h with h3
      subst h3
      exact matchRatioOpt_invariant h2

lemma processLine_invariant {line g : List Char} (h : processLine line = some g) :
    g ≠ [] ∧ g.all identChar = true := by
  simp only [processLine] at h
  split at h
  · cases h
  · split at h
    · cases h
    · exact GROUP_LINE_match_invariant h

/-- Elementwise description of the group loop: on success it returns one
line per group, and the `j`-th line is the formatted result of running the
`j`-th group with the `(i+j)`-th environment entry. -/
lemma runGroups_spec (env : Nat → RunOutcome × TrxFile) :
    ∀ (gs : List (List Char)) (i : Nat) (out : List (List Char)),
      runGroups gs i env = .ok out →
      out.length = gs.length ∧
      ∀ j g, gs[j]? = some g →
        ∃ l, out[j]? = some l ∧ groupStep (env (i + j)).1 (env (i + j)).2 g = .ok l := by
  intro gs
  induction gs with
  | nil =>
    intro i out h
    unfold runGroups at h
    injection h with h1
    subst h1
    refine ⟨rfl, fun j g hj => ?_⟩
    simp at hj
  | cons g0 gs ih =>
    intro i out h
    unfold runGroups at h
    cases hstep : groupStep (env i).1 (env i).2 g0 with
    | error e => rw [hstep] at h; cases h
    | ok line =>
      simp only [hstep] at h
      cases hrest : runGroups gs (i + 1) env with
      | error e => rw [hrest] at h; cases h
      | ok rest =>
        simp only [hrest] at h
        injection h with h1
        subst h1
        obtain ⟨hlen, hspec⟩ := ih (i + 1) rest hrest
        refine ⟨by simp [hlen], fun j g hj => ?_⟩
        cases j with
        | zero =>
          simp only [List.getElem?_cons_zero] at hj
          injection hj with hg
          subst hg
          refine ⟨line, by simp, ?_⟩
          rw [Nat.add_zero]
          exact hstep
        | succ j' =>
          simp only [List.getElem?_cons_succ] at hj
          obtain ⟨l, hl1, hl2⟩ := hspec j' g hj
          refine ⟨l, by simpa using hl1, ?_⟩
          have harith : i + (j' + 1) = (i + 1) + j' := by omega
          rw [harith]
          exact hl2

/-! ### Claims -/

/-- Claim C1: for every group, the emitted summary line is the
fully-passed marker `✅ <group>` exactly when
`failed == 0 and passed > 0 and passed == total`; in every other case it
is the ratio form `<passed>/<total> <group>`, so a group with
`total == 0` is rendered as `0/0 <group>` and never as fully passed. -/
theorem claim1_summary_classification (name : List Char) (p f t : Int) :
    (summaryLine name p f t = '✅' :: ' ' :: name ↔ f = 0 ∧ 0 < p ∧ p = t) ∧
    (¬(f = 0 ∧ 0 < p ∧ p = t) →
      summaryLine name p f t = intStr p ++ '/' :: intStr t ++ ' ' :: name) ∧
    (t = 0 → summaryLine name p f t ≠ '✅' :: ' ' :: name) ∧
    (t = 0 → p = 0 → summaryLine name p f t = '0' :: '/' :: '0' :: ' ' :: name) := by
  have hiff : summaryLine name p f t = '✅' :: ' ' :: name ↔ f = 0 ∧ 0 < p ∧ p = t := by
    constructor
    · intro he
      by_contra hc
      unfold summaryLine at he
      rw [if_neg hc] at he
      exact ratio_ne_marker p _ _ _ he
    · intro hc
      unfold summaryLine
      rw [if_pos hc]
  refine ⟨hiff, fun hn => ?_, fun ht he => ?_, fun ht hp => ?_⟩
  · unfold summaryLine
    rw [if_neg hn]
  · have hc := hiff.mp he
    omega
  · subst ht
    subst hp
    have hn : ¬((f : Int) = 0 ∧ (0 : Int) < 0 ∧ (0 : Int) = 0) := by omega
    unfold summaryLine
    rw [if_neg hn]
    rfl

/-- Witness for C1 at concrete counts. -/
theorem claim1_summary_classification_witness :
    summaryLine ('G' :: []) 3 0 3 = '✅' :: ' ' :: 'G' :: [] ∧
    summaryLine ('G' :: []) 0 5 0 = '0' :: '/' :: '0' :: ' ' :: 'G' :: [] :=
  ⟨(claim1_summary_classification ('G' :: []) 3 0 3).1.mpr (by omega),
   (claim1_summary_classification ('G' :: []) 0 5 0).2.2.2 rfl rfl⟩

/-- Counterexample to C3: an execution error of the runner invocation that
is not a non-zero exit code (here `FileNotFoundError`, the binary not
found) is not swallowed: it propagates out of `run_group`, so execution
does not continue to result parsing. -/
theorem claim3_exec_error_counterexample :
    run_group ('G' :: []) .execError .missing = .error .fileNotFound := rfl

/-- Claim C3 (amended): only a completed invocation with non-zero exit
code (`CalledProcessError`) is swallowed — the result is the same as for a
zero exit, leaving the result file as the only observable consequence —
while any other execution error (such as the runner binary not being
found) propagates and aborts the group. -/
theorem claim3_swallow_scope (g : List Char) (file : TrxFile) :
    run_group g .exitNonZero file = run_group g .exitZero file ∧
    run_group g .execError file = .error .fileNotFound :=
  ⟨rfl, rfl⟩

/-- Claim C5: for a counters node whose attributes carry the non-negative
integers `p`, `f`, `s` (a missing attribute reads as `"0"` via the
default), the reader reproduces them unchanged and the runner returns
`total = p + f + s` exactly. -/
theorem claim5_reader_exact (c : Counters) (p f s : Nat) (g : List Char)
    (hp : pyInt (attrGet c.passed) = some (p : Int))
    (hf : pyInt (attrGet c.failed) = some (f : Int))
    (hs : pyInt (attrGet c.notExecuted) = some (s : Int)) :
    read_counts (.parsed (some c)) = .ok ((p : Int), (f : Int), (s : Int)) ∧
    run_group g .exitZero (.parsed (some c)) =
      .ok (g, (p : Int), (f : Int), (p : Int) + (f : Int) + (s : Int)) := by
  have h1 : read_counts (.parsed (some c)) = .ok ((p : Int), (f : Int), (s : Int)) := by
    simp [read_counts, pyIntExc, hp, hf, hs]
  refine ⟨h1, ?_⟩
  simp [run_group, h1]

/-- Witness for C5 with `passed="3"`, `failed="1"`, `notExecuted` absent. -/
theorem claim5_reader_exact_witness :
    read_counts (.parsed (some ⟨some ('3' :: []), some ('1' :: []), none⟩)) =
      .ok (((3 : Nat) : Int), ((1 : Nat) : Int), ((0 : Nat) : Int)) ∧
    run_group ('G' :: []) .exitZero
        (.parsed (some ⟨some ('3' :: []), some ('1' :: []), none⟩)) =
      .ok (('G' :: []), ((3 : Nat) : Int), ((1 : Nat) : Int),
        ((3 : Nat) : Int) + ((1 : Nat) : Int) + ((0 : Nat) : Int)) :=
  claim5_reader_exact _ 3 1 0 _ (by decide) (by decide) (by decide)

/-- Claim C6: when the expected result file does not exist, the reader
returns the all-zero record without raising, and the runner (for a
completed invocation) returns zero counts and zero total. -/
theorem claim6_missing_file_zero (g : List Char) :
    read_counts .missing = .ok (0, 0, 0) ∧
    run_group g .exitZero .missing = .ok (g, 0, 0, 0) ∧
    run_group g .exitNonZero .missing = .ok (g, 0, 0, 0) :=
  ⟨rfl, rfl, rfl⟩

/-- Counterexample to C2: a result file whose counters node exists but
carries a non-integer attribute value makes the reader raise `ValueError`
(the code catches only `ET.ParseError`), so the reader does not always
return a record. -/
theorem claim2_reader_raises_counterexample :
    read_counts (.parsed (some ⟨some ('a' :: 'b' :: 'c' :: []), none, none⟩)) =
      .error .valueError := rfl

/-- Claim C2 (amended): the reader returns a record without raising for a
missing file, malformed XML, or a missing counters node, and for any
counters node all of whose present attribute values are integer literals;
a non-integer attribute value raises `ValueError` to the caller. -/
theorem claim2_reader_no_raise (file : TrxFile) (h : attrsIntOk file = true) :
    ∃ r, read_counts file = .ok r := by
  cases file with
  | missing => exact ⟨(0, 0, 0), rfl⟩
  | unparsable => exact ⟨(0, 0, 0), rfl⟩
  | parsed c =>
    cases c with
    | none => exact ⟨(0, 0, 0), rfl⟩
    | some cc =>
      unfold attrsIntOk at h
      simp only [Bool.and_eq_true] at h
      obtain ⟨⟨h1, h2⟩, h3⟩ := h
      obtain ⟨p, hp⟩ := Option.isSome_iff_exists.mp h1
      obtain ⟨f, hf⟩ := Option.isSome_iff_exists.mp h2
      obtain ⟨s, hs⟩ := Option.isSome_iff_exists.mp h3
      refine ⟨(p, f, s), ?_⟩
      simp [read_counts, pyIntExc, hp, hf, hs]

/-- Witness for the amended C2. -/
theorem claim2_reader_no_raise_witness :
    attrsIntOk (.parsed (some ⟨some ('3' :: []), none, some ('7' :: [])⟩)) = true ∧
    ∃ r, read_counts (.parsed (some ⟨some ('3' :: []), none, some ('7' :: [])⟩)) = .ok r :=
  ⟨by decide, claim2_reader_no_raise _ (by decide)⟩

/-- Counterexample to C4: the line `✅abc` matches none of the four
recognized shapes of the claim (the checkmark shapes require whitespace
between the checkmark and the next token), it is neither blank nor a
comment, and yet it is not skipped: `parse_groups` extracts `abc`,
because the regex allows empty whitespace after the checkmark. -/
theorem claim4_check_no_space_counterexample :
    processLine ('✅' :: 'a' :: 'b' :: 'c' :: []) = some ('a' :: 'b' :: 'c' :: []) ∧
    specShapes ('✅' :: 'a' :: 'b' :: 'c' :: []) = none ∧
    pyStrip ('✅' :: 'a' :: 'b' :: 'c' :: []) = '✅' :: 'a' :: 'b' :: 'c' :: [] ∧
    ('✅' :: 'a' :: 'b' :: 'c' :: []).isEmpty = false ∧
    ('✅' :: 'a' :: 'b' :: 'c' :: []).head? ≠ some '#' := by decide

/-- Claim C4 (amended): after trimming, blank lines and lines starting
with `#` yield nothing; a line matching one of the recognized shapes —
with the whitespace after a leading checkmark allowed to be empty —
yields exactly the trailing identifier token; any other line is silently
skipped. -/
theorem claim4_line_shapes (line : List Char) :
    processLine line =
      if (pyStrip line).isEmpty then none
      else if (pyStrip line).head? = some '#' then none
      else relaxedShapes (pyStrip line) := by
  simp only [processLine]
  rw [GROUP_LINE_eq_relaxedShapes]

/-- Claim C7: over the outcomes `main` can return, the exit status is 1
exactly when zero groups are parsed (and then nothing is printed to
standard output), and 0 on normal completion of all groups, whatever the
counts. -/
theorem claim7_exit_status (doc : List (List Char)) (env : Nat → RunOutcome × TrxFile)
    (out : List (List Char)) (code : Nat)
    (h : main doc env = .ok (out, code)) :
    (code = 1 ↔ parse_groups doc = []) ∧
    (parse_groups doc = [] → out = []) ∧ (code = 0 ∨ code = 1) := by
  unfold main at h
  by_cases hg : (parse_groups doc).isEmpty
  · rw [if_pos hg] at h
    injection h with h1
    injection h1 with h2 h3
    subst h2
    subst h3
    have he : parse_groups doc = [] := by
      cases hpg : parse_groups doc with
      | nil => rfl
      | cons a as => rw [hpg] at hg; cases hg
    exact ⟨⟨fun _ => he, fun _ => rfl⟩, fun _ => rfl, Or.inr rfl⟩
  · rw [if_neg hg] at h
    cases hr : runGroups (parse_groups doc) 0 env with
    | error e => rw [hr] at h; cases h
    | ok out2 =>
      simp only [hr] at h
      injection h with h1
      injection h1 with h2 h3
      subst h2
      subst h3
      have hne : parse_groups doc ≠ [] := by
        intro he
        rw [he] at hg
        exact hg rfl
      exact ⟨⟨fun h01 => absurd h01 (by omega), fun he => absurd he hne⟩,
        fun he => absurd he hne, Or.inl rfl⟩

/-- Witness for C7 on an all-comment document (exit 1, empty output). -/
theorem claim7_exit_status_witness :
    ((1 : Nat) = 1 ↔ parse_groups [('#' :: 'a' :: [])] = []) ∧
    (parse_groups [('#' :: 'a' :: [])] = [] → ([] : List (List Char)) = []) ∧
    ((1 : Nat) = 0 ∨ (1 : Nat) = 1) :=
  claim7_exit_status [('#' :: 'a' :: [])] (fun _ => (.exitZero, .missing)) [] 1 rfl

/-- Claim C8: on normal completion the report has exactly one summary
line per parsed group, the `j`-th line being the formatted result of the
`j`-th group in document order — no reordering and no deduplication. -/
theorem claim8_report_lines (doc : List (List Char)) (env : Nat → RunOutcome × TrxFile)
    (out : List (List Char)) (h : main doc env = .ok (out, 0)) :
    out.length = (parse_groups doc).length ∧
    ∀ j g, (parse_groups doc)[j]? = some g →
      ∃ l, out[j]? = some l ∧ groupStep (env j).1 (env j).2 g = .ok l := by
  unfold main at h
  by_cases hg : (parse_groups doc).isEmpty
  · rw [if_pos hg] at h
    injection h with h1
    injection h1 with h2 h3
    exact absurd h3 one_ne_zero
  · rw [if_neg hg] at h
    cases hr : runGroups (parse_groups doc) 0 env with
    | error e => rw [hr] at h; cases h
    | ok out2 =>
      simp only [hr] at h
      injection h with h1
      injection h1 with h2 h3
      subst h2
      obtain ⟨hlen, hspec⟩ := runGroups_spec env (parse_groups doc) 0 out2 hr
      refine ⟨hlen, fun j g hj => ?_⟩
      obtain ⟨l, hl1, hl2⟩ := hspec j g hj
      rw [Nat.zero_add] at hl2
      exact ⟨l, hl1, hl2⟩

/-- Witness for C8 on a document with a duplicated group name: two lines,
one per occurrence, in order. -/
theorem claim8_report_lines_witness :
    ([('0' :: '/' :: '0' :: ' ' :: 'A' :: []), ('0' :: '/' :: '0' :: ' ' :: 'A' :: [])] :
        List (List Char)).length = (parse_groups [('A' :: []), ('A' :: [])]).length ∧
    ∀ (j : Nat) (g : List Char), (parse_groups [('A' :: []), ('A' :: [])])[j]? = some g →
      ∃ l, ([('0' :: '/' :: '0' :: ' ' :: 'A' :: []),
          ('0' :: '/' :: '0' :: ' ' :: 'A' :: [])] : List (List Char))[j]? = some l ∧
        groupStep ((fun _ => ((.exitZero : RunOutcome), (.missing : TrxFile))) j).1
          ((fun _ => ((.exitZero : RunOutcome), (.missing : TrxFile))) j).2 g = .ok l :=
  claim8_report_lines [('A' :: []), ('A' :: [])]
    (fun _ => (.exitZero, .missing)) _ rfl

/-- Counterexample to C9: an attribute value `-5` is a well-formed
integer for Python's `int`, so the reader produces a negative count; the
non-negativity invariant does not hold for arbitrary file content. -/
theorem claim9_negative_counterexample :
    read_counts (.parsed (some ⟨some ('-' :: '5' :: []), none, none⟩)) =
      .ok (-5, 0, 0) ∧ ((-5 : Int) < 0) := ⟨rfl, by decide⟩

/-- Claim C9 (amended): all counts the reader produces are non-negative
provided every attribute value that converts at all converts to a
non-negative integer (in particular for ordinary digit-string TRX
attributes), and a missing or unparsable file yields the all-zero
record. -/
theorem claim9_counts_nonneg (file : TrxFile) (h : attrsNonneg file = true) :
    (∀ p f s : Int, read_counts file = .ok (p, f, s) →
      0 ≤ p ∧ 0 ≤ f ∧ 0 ≤ s ∧ 0 ≤ p + f + s) ∧
    ((file = .missing ∨ file = .unparsable) → read_counts file = .ok (0, 0, 0)) := by
  cases file with
  | missing =>
    refine ⟨fun p f s hh => ?_, fun _ => rfl⟩
    simp only [read_counts, Except.ok.injEq, Prod.mk.injEq] at hh
    obtain ⟨e1, e2, e3⟩ := hh
    omega
  | unparsable =>
    refine ⟨fun p f s hh => ?_, fun _ => rfl⟩
    simp only [read_counts, Except.ok.injEq, Prod.mk.injEq] at hh
    obtain ⟨e1, e2, e3⟩ := hh
    omega
  | parsed c =>
    cases c with
    | none =>
      refine ⟨fun p f s hh => ?_, fun hd => ?_⟩
      · simp only [read_counts, Except.ok.injEq, Prod.mk.injEq] at hh
        obtain ⟨e1, e2, e3⟩ := hh
        omega
      · rcases hd with hd | hd <;> exact TrxFile.noConfusion hd
    | some cc =>
      unfold attrsNonneg at h
      simp only [Bool.and_eq_true] at h
      obtain ⟨⟨h1, h2⟩, h3⟩ := h
      refine ⟨fun p f s hh => ?_, fun hd => ?_⟩
      · cases hp : pyInt (attrGet cc.passed) with
        | none => simp [read_counts, pyIntExc, hp] at hh
        | some zp =>
          cases hf : pyInt (attrGet cc.failed) with
          | none => simp [read_counts, pyIntExc, hp, hf] at hh
          | some zf =>
            cases hs : pyInt (attrGet cc.notExecuted) with
            | none => simp [read_counts, pyIntExc, hp, hf, hs] at hh
            | some zs =>
              simp only [read_counts, pyIntExc, hp, hf, hs, Except.ok.injEq,
                Prod.mk.injEq] at hh
              obtain ⟨e1, e2, e3⟩ := hh
              rw [hp] at h1
              rw [hf] at h2
              rw [hs] at h3
              simp only [Option.all_some, decide_eq_true_eq] at h1 h2 h3
              omega
      · rcases hd with hd | hd <;> exact TrxFile.noConfusion hd

/-- Witness for the amended C9. -/
theorem claim9_counts_nonneg_witness :
    0 ≤ (2 : Int) ∧ 0 ≤ (0 : Int) ∧ 0 ≤ (0 : Int) ∧ 0 ≤ (2 : Int) + 0 + 0 :=
  (claim9_counts_nonneg (.parsed (some ⟨some ('2' :: []), none, none⟩))
    (by decide)).1 2 0 0 rfl

/-- Claim C10: every identifier produced by the group-list parsing is a
nonempty string of identifier characters (letters, digits, dot,
underscore, hyphen) — in particular it contains no whitespace, no
checkmark glyph and no slash. -/
theorem claim10_ident_invariant (doc : List (List Char)) (g : List Char)
    (hg : g ∈ parse_groups doc) :
    g ≠ [] ∧ ∀ c ∈ g, identChar c = true ∧ pySpace c = false ∧ c ≠ '✅' ∧ c ≠ '/' := by
  obtain ⟨line, hline, hp⟩ := List.mem_filterMap.mp hg
  obtain ⟨hne, hall⟩ := processLine_invariant hp
  refine ⟨hne, fun c hc => ?_⟩
  have hid := List.all_eq_true.mp hall c hc
  exact ⟨hid, not_space_of_identChar hid, ne_check_of_identChar hid,
    ne_slash_of_identChar hid⟩

/-- Witness for C10. -/
theorem claim10_ident_invariant_witness :
    ('A' :: 'b' :: []) ≠ [] ∧
    ∀ c ∈ ('A' :: 'b' :: []),
      identChar c = true ∧ pySpace c = false ∧ c ≠ '✅' ∧ c ≠ '/' :=
  claim10_ident_invariant [('A' :: 'b' :: [])] _ (by decide)

end Test262Report
